import Mathlib

/-!
Verification of the MilestoneManager extension's commit-message codec and
git-command orchestration, shallowly embedded from the TypeScript source.

Strings are modelled as `List Char` (`Str`).  JavaScript string primitives
used by the source (`split`, `trim`, `toLowerCase`, `replace` with the two
concrete regexes, `startsWith`-style grep anchoring) are given executable
models below.  External effects (child-process `execAsync`, the input box,
the confirmation dialog, the configuration store) are abstracted into an
`Env` record; each operation returns the ordered list of shell commands it
issued together with the user-visible outcome, so that "no state-changing
command was issued" and "one push retry" are provable statements.
-/

/-- Strings of the JavaScript model: lists of characters. -/
abbrev Str := List Char

/-- The ASCII part of JavaScript's `\s` class (space, tab, LF, VT, FF, CR),
used by `trim` and by the `\s*` parts of the two message-cleaning regexes. -/
def wsChar (c : Char) : Bool :=
  c = ' ' ∨ c = '\t' ∨ c = '\n' ∨ c = Char.ofNat 11 ∨ c = Char.ofNat 12 ∨ c = '\r'

/-- Fuel-indexed worker for JavaScript `String.prototype.split` with a
non-empty literal separator: cut at every leftmost occurrence of `sep`.
The fuel only forces structural recursion; it is always run with enough
fuel (the length of the string). -/
def jsSplitGo (sep : Str) : Nat → Str → List Str
  | _, [] => [[]]
  | 0, s => [s]
  | Nat.succ fuel, c :: rest =>
    if sep.isEmpty = false ∧ sep.isPrefixOf (c :: rest) = true then
      [] :: jsSplitGo sep fuel ((c :: rest).drop sep.length)
    else
      match jsSplitGo sep fuel rest with
      | [] => [c] :: []
      | r :: rs => (c :: r) :: rs

/-- JavaScript `s.split(sep)` for a non-empty literal separator. -/
def jsSplit (sep s : Str) : List Str :=
  jsSplitGo sep s.length s

/-- JavaScript `s.trim()` (restricted to the ASCII whitespace of `wsChar`). -/
def jsTrim (s : Str) : Str :=
  ((s.dropWhile wsChar).reverse.dropWhile wsChar).reverse

/-- JavaScript `s.toLowerCase()` restricted to ASCII letters, which is all
the source compares (git branch names in the protected-branch check). -/
def jsToLower (s : Str) : Str :=
  s.map Char.toLower

/-- Whether `pat` occurs as a contiguous substring of `s` (used to state
"the note contains no field delimiter" side conditions). -/
def containsSeq (pat : Str) : Str → Bool
  | [] => pat.isEmpty
  | c :: rest => pat.isPrefixOf (c :: rest) || containsSeq pat rest

/-- `true` when the string contains no `'|'` at all (hashes and git dates
never do; this keeps the `|||`-separated log lines unambiguous). -/
def noBar (s : Str) : Bool :=
  s.all (fun c => c ≠ '|')

/-- The `|||` field delimiter of the `git log --pretty` format. -/
def bar3 : Str := ['|', '|', '|']

/-- The `___` separator of the tag-embedding commit-message scheme. -/
def und3 : Str := ['_', '_', '_']

/-- A single newline, the record separator of `git log` output. -/
def nlSep : Str := ['\n']

/-- A single space, used to cut the time out of the `%ai` date-time field. -/
def spSep : Str := [' ']

/-- A single semicolon, the separator of the `additionalBaseBranches`
configuration value. -/
def semiSep : Str := [';']

/-- The record produced by parsing one well-formed log line
(`interface Milestone` in the source).  `time` is `datetime.split(' ')[1]`,
which in JavaScript is `undefined` when the date-time field has no space,
hence an `Option`. -/
structure Milestone where
  hash : Str
  message : Str
  date : Str
  time : Option Str
deriving DecidableEq, Repr

/-- The fixed default used for an empty note: `note || 'No note provided'`. -/
def defaultNote : Str := "No note provided".data

/-- JavaScript `note || 'No note provided'` (empty string is falsy). -/
def jsOrDefault (note : Str) : Str :=
  if note = [] then defaultNote else note

/-! ## The three commit-message codecs

`decodeLine*` models the body of the arrow function passed to `.map` inside
`getMilestones`.  In JavaScript, destructuring a short array yields
`undefined`, and the subsequent `datetime.split(' ')` (or
`fullMessage.split('___')`) then throws a `TypeError`; a throw inside `.map`
aborts the whole listing and is caught at the `getMilestones` boundary.
We model a throw as `Except.error ()`. -/

/-- Parsing of one log line in the `"Milestone: "` revision
(`part_003` / `part_005` `getMilestones`): destructure the four
`|||`-fields and take the second space-token of the date-time as the time.
No prefix is stripped from the subject and no line is ever skipped;
a line with fewer than four fields throws (`datetime` is `undefined`). -/
def decodeLine003 (line : Str) : Except Unit Milestone :=
  match (jsSplit bar3 line)[3]? with
  | none => Except.error ()
  | some dt =>
    Except.ok
      { hash := (jsSplit bar3 line).getD 0 []
        message := (jsSplit bar3 line).getD 1 []
        date := (jsSplit bar3 line).getD 2 []
        time := (jsSplit spSep dt)[1]? }

/-- The `.map` over all lines of the `"Milestone: "` revision: any throwing
line aborts the whole decode. -/
def decodeLines003 : List Str → Option (List Milestone)
  | [] => some []
  | l :: ls =>
    match decodeLine003 l with
    | Except.error _ => none
    | Except.ok m => (decodeLines003 ls).map (fun rs => m :: rs)

/-- The fixed literal prefix of the tag-embedding scheme (`part_002`):
`MSVE___BR___<branch>___MS___<note>`. -/
def msvePre : Str := "MSVE___BR___".data

/-- Display prefix re-attached by the tag-scheme decoder. -/
def milestonePre : Str := "Milestone: ".data

/-- Parsing of one log line in the tag-embedding revision (`part_002`
`getMilestones`), with the `undefined`-dereference throws made explicit as
length tests: a line with fewer than two `|||`-fields throws at
`fullMessage.split('___')`; then the subject is split on `___` and the
line is dropped when it has fewer than five parts or its embedded branch
(part 2) differs from the current branch; finally a surviving line with
fewer than four `|||`-fields throws at `datetime.split(' ')`. -/
def decodeLineTag (cur line : Str) : Except Unit (Option Milestone) :=
  if (jsSplit bar3 line).length < 2 then Except.error ()
  else if (jsSplit und3 ((jsSplit bar3 line).getD 1 [])).length < 5 then Except.ok none
  else if (jsSplit und3 ((jsSplit bar3 line).getD 1 [])).getD 2 [] ≠ cur then Except.ok none
  else if (jsSplit bar3 line).length < 4 then Except.error ()
  else
    Except.ok (some
      { hash := (jsSplit bar3 line).getD 0 []
        message := milestonePre ++ (jsSplit und3 ((jsSplit bar3 line).getD 1 [])).getD 4 []
        date := (jsSplit bar3 line).getD 2 []
        time := (jsSplit spSep ((jsSplit bar3 line).getD 3 []))[1]? })

/-- The `.map`/`.filter(item => item !== null)` pipeline of the
tag-embedding revision: any throwing line aborts the whole decode, dropped
lines produce nothing. -/
def decodeLinesTag (cur : Str) : List Str → Option (List Milestone)
  | [] => some []
  | l :: ls =>
    match decodeLineTag cur l with
    | Except.error _ => none
    | Except.ok none => decodeLinesTag cur ls
    | Except.ok (some m) => (decodeLinesTag cur ls).map (fun rs => m :: rs)

/-- The record kept from a line by the tag-embedding decoder, if any. -/
def keptTag (cur line : Str) : Option Milestone :=
  match decodeLineTag cur line with
  | Except.ok (some m) => some m
  | _ => none

/-- `"feat:"`, the literal of the cleaning regex `/^feat:\s*/`. -/
def featColon : Str := "feat:".data

/-- `"feat: "`, the prefix attached by the feat-scheme encoder. -/
def featPre : Str := "feat: ".data

/-- `"saved as milestone"`, the literal of `/\s*saved as milestone$/`. -/
def savedLit : Str := "saved as milestone".data

/-- `" saved as milestone"`, the suffix attached by the feat-scheme encoder. -/
def savedSfx : Str := " saved as milestone".data

/-- Remove a maximal trailing run of whitespace. -/
def revDropWs (s : Str) : Str :=
  (s.reverse.dropWhile wsChar).reverse

/-- JavaScript `message.replace(/^feat:\s*/, '')`: when the string starts
with `feat:`, remove it together with the following maximal whitespace
run; otherwise leave the string unchanged. -/
def removeFeatLead (s : Str) : Str :=
  if featColon.isPrefixOf s then (s.drop featColon.length).dropWhile wsChar else s

/-- JavaScript `message.replace(/\s*saved as milestone$/, '')`: when the
string ends with `saved as milestone`, remove that literal together with
the maximal whitespace run before it; otherwise leave it unchanged. -/
def removeSavedTail (s : Str) : Str :=
  if savedLit.isSuffixOf s then revDropWs (s.take (s.length - savedLit.length)) else s

/-- The `cleanMessage` computation of the feat-scheme revision (README
`getMilestones`): strip the `feat: ` prefix and the ` saved as milestone`
suffix from the subject. -/
def cleanMessage (s : Str) : Str :=
  removeSavedTail (removeFeatLead s)

/-- Parsing of one log line in the feat-scheme revision (README
`getMilestones`): like the `"Milestone: "` revision but with the subject
cleaned by `cleanMessage`. -/
def decodeLineFeat (line : Str) : Except Unit Milestone :=
  match (jsSplit bar3 line)[3]? with
  | none => Except.error ()
  | some dt =>
    Except.ok
      { hash := (jsSplit bar3 line).getD 0 []
        message := cleanMessage ((jsSplit bar3 line).getD 1 [])
        date := (jsSplit bar3 line).getD 2 []
        time := (jsSplit spSep dt)[1]? }

/-- The `.map` over all lines of the feat-scheme revision. -/
def decodeLinesFeat : List Str → Option (List Milestone)
  | [] => some []
  | l :: ls =>
    match decodeLineFeat l with
    | Except.error _ => none
    | Except.ok m => (decodeLinesFeat ls).map (fun rs => m :: rs)

/-! ## Encoders and the subject filter -/

/-- `Encode` of the `"Milestone: "` scheme: the commit subject built by
`createMilestone` (`part_003`), `"Milestone: " + (note || 'No note
provided')`.  The branch is not embedded in this scheme. -/
def encodeSubject003 (note : Str) : Str :=
  milestonePre ++ jsOrDefault note

/-- `Encode` of the feat scheme: the commit subject built by the README
revision's `createMilestone`,
`"feat: " + (note || 'No note provided') + " saved as milestone"`. -/
def encodeSubjectFeat (note : Str) : Str :=
  featPre ++ jsOrDefault note ++ savedSfx

/-- The literal token anchored by the listing query of the `"Milestone: "`
scheme (`--grep="^Milestone:"`). -/
def msToken : Str := "Milestone:".data

/-- `IsMilestoneSubject` for the `"Milestone: "` scheme: the `git log`
query greps commit subjects against the anchored expression
`^Milestone:`, i.e. accepts exactly the subjects starting with the fixed
literal token. -/
def isMilestoneSubject (s : Str) : Bool :=
  msToken.isPrefixOf s

/-- Assemble one raw log line of the `--pretty=format:"%H|||%s|||%ad|||%ai"`
output from its four fields. -/
def mkLogLine (hash subject date dt : Str) : Str :=
  hash ++ bar3 ++ subject ++ bar3 ++ date ++ bar3 ++ dt

/-! ## Environment and operations

`Env` abstracts the extension host and the shell: `exec` is the outcome of
`execAsync` per command string (`Except.error e` models a rejected promise
whose `error.message` is `e`), the remaining fields are the workspace
state, the dialogs' answers and the configuration values read through
`vscode.workspace.getConfiguration`.  Each operation returns the ordered
list of commands it actually issued, paired with its user-visible
outcome. -/

/-- The user-visible outcome of an operation: an information message, an
error message, or a silent return (user cancelled a dialog). -/
inductive UiMsg where
  | info (m : Str)
  | err (m : Str)
  | silent
deriving DecidableEq, Repr

/-- The host/shell environment an operation runs against. -/
structure Env where
  workspace : Option Str
  exec : Str → Except Str Str
  noteInput : Option Str
  confirmReset : Bool
  additionalBaseBranches : Str
  ignoredFilesPattern : Str
  regexValid : Str → Bool
  regexTest : Str → Str → Bool

/-- `git rev-parse --is-inside-work-tree` (the `isGitRepository` probe). -/
def revParseCmd : Str := "git rev-parse --is-inside-work-tree".data

/-- `git symbolic-ref --short HEAD` (read the current branch name). -/
def symRefCmd : Str := "git symbolic-ref --short HEAD".data

/-- `git add .` -/
def addAllCmd : Str := "git add .".data

/-- `git reset -- "*.log"` -/
def resetLogCmd : Str := "git reset -- \"*.log\"".data

/-- `git reset -- "appsettings.*json"` -/
def resetAppCmd : Str := "git reset -- \"appsettings.*json\"".data

/-- The milestone commit command of the `"Milestone: "` revision; its
`-m` argument is exactly `encodeSubject003 note`. -/
def commitCmd003 (note : Str) : Str :=
  "git commit --allow-empty -m \"".data ++ encodeSubject003 note ++ "\"".data

/-- The milestone commit command of the feat-scheme revision; its `-m`
argument is exactly `encodeSubjectFeat note`. -/
def commitCmdFeat (note : Str) : Str :=
  "git commit --allow-empty -m \"".data ++ encodeSubjectFeat note ++ "\"".data

/-- `git push` -/
def pushCmd : Str := "git push".data

/-- `git push --set-upstream origin <branch>` (the one fallback retry). -/
def upstreamCmd (branch : Str) : Str :=
  "git push --set-upstream origin ".data ++ branch

/-- `git add -A` (revert path). -/
def addACmd : Str := "git add -A".data

/-- `git reset --hard <hash>` -/
def resetHardCmd (hash : Str) : Str :=
  "git reset --hard ".data ++ hash

/-- `git clean -fd` -/
def cleanCmd : Str := "git clean -fd".data

/-- `git push -f origin <branch>` -/
def forcePushCmd (branch : Str) : Str :=
  "git push -f origin ".data ++ branch

/-- The branch-scoped milestone listing query of the `"Milestone: "`
revision. -/
def logCmd003 : Str :=
  "git log origin/HEAD.. --pretty=format:\"%H|||%s|||%ad|||%ai\" --date=short --grep=\"^Milestone:\" -n 50".data

/-- `git diff --cached --name-only` (staged-file listing for the
ignored-files filter). -/
def diffCachedCmd : Str := "git diff --cached --name-only".data

/-- `git reset -- "<file>"` (unstaging one ignored file). -/
def resetFileCmd (file : Str) : Str :=
  "git reset -- \"".data ++ file ++ "\"".data

/-- A command alters repository state when it is a `git add`, `git commit`,
`git push`, `git reset` or `git clean` invocation; the probes
`git rev-parse`/`git symbolic-ref`/`git log`/`git diff` are read-only. -/
def stateChangingCmd (c : Str) : Bool :=
  ["git add".data, "git commit".data, "git push".data,
   "git reset".data, "git clean".data].any (fun p => p.isPrefixOf c)

/-- The hard-coded protected set together with the configured additions:
`getBaseBranches` of `part_003`/README. -/
def getBaseBranches (cfg : Str) : List Str :=
  if jsTrim cfg = [] then ["master".data, "main".data]
  else
    ["master".data, "main".data] ++
      ((jsSplit semiSep cfg).map jsTrim).filter (fun b => decide (0 < b.length))

/-- The protected-branch test of `revertToMilestone`:
`baseBranches.some(branch => branch.toLowerCase() === currentBranch.toLowerCase())`. -/
def isBaseBranch (cfg cur : Str) : Bool :=
  (getBaseBranches cfg).any (fun b => jsToLower b == jsToLower cur)

/-- `getMilestones` of the `"Milestone: "` revision (`part_003`): issue the
listing query; any failure (no workspace, rejected command, a throwing
line in the parse) is caught and yields the empty list, and so does empty
trimmed output. -/
def getMilestones003 (env : Env) : List Milestone :=
  match env.workspace with
  | none => []
  | some _ =>
    match env.exec logCmd003 with
    | Except.error _ => []
    | Except.ok out =>
      if jsTrim out = [] then []
      else
        match decodeLines003 (jsSplit nlSep out) with
        | none => []
        | some rs => rs

/-- Messages shown by the operations. -/
def noWorkspaceMsg : Str := "No workspace folder is opened".data

/-- Error shown when the workspace is not a git repository. -/
def notRepoMsg : Str := "This workspace is not a git repository".data

/-- Success message of `createMilestone`. -/
def createdMsg : Str := "Milestone created successfully!".data

/-- Success message of `revertToMilestone`. -/
def revertedMsg : Str := "Successfully reset to milestone and updated remote".data

/-- `Failed to create milestone: <e>` (outer catch of `createMilestone`). -/
def failCreate (e : Str) : Str := "Failed to create milestone: ".data ++ e

/-- `Git operation failed: <e>` (inner catch of both mutating operations). -/
def gitOpFailed (e : Str) : Str := "Git operation failed: ".data ++ e

/-- `Failed to push changes: <e>` (innermost push-fallback catch). -/
def failPush (e : Str) : Str := "Failed to push changes: ".data ++ e

/-- `Failed to reset to milestone: <e>` (outer catch of
`revertToMilestone`). -/
def failRevert (e : Str) : Str := "Failed to reset to milestone: ".data ++ e

/-- The protected-branch rejection message of `revertToMilestone`. -/
def protectedMsg (cur : Str) (bases : List Str) : Str :=
  "Cannot force push to base branch '".data ++ cur ++
    "'. Protected branches: ".data ++ List.intercalate ", ".data bases ++
    ". Please switch to a different branch first.".data

/-- `createMilestone` of the `"Milestone: "` revision (`part_003`): check
the workspace and repository, read the note, read the branch, then stage,
unstage the excluded globs, commit, and push with the single
set-upstream fallback.  Every throw is caught and wrapped exactly as in
the source; the first component lists the commands issued in order. -/
def createMilestone003 (env : Env) : List Str × UiMsg :=
  match env.workspace with
  | none => ([], UiMsg.err (failCreate noWorkspaceMsg))
  | some _ =>
    match env.exec revParseCmd with
    | Except.error _ => ([revParseCmd], UiMsg.err notRepoMsg)
    | Except.ok _ =>
      match env.noteInput with
      | none => ([revParseCmd], UiMsg.silent)
      | some note =>
        match env.exec symRefCmd with
        | Except.error e => ([revParseCmd, symRefCmd], UiMsg.err (failCreate e))
        | Except.ok branchOut =>
          match env.exec addAllCmd with
          | Except.error e =>
            ([revParseCmd, symRefCmd, addAllCmd], UiMsg.err (failCreate (gitOpFailed e)))
          | Except.ok _ =>
            match env.exec resetLogCmd with
            | Except.error e =>
              ([revParseCmd, symRefCmd, addAllCmd, resetLogCmd],
               UiMsg.err (failCreate (gitOpFailed e)))
            | Except.ok _ =>
              match env.exec resetAppCmd with
              | Except.error e =>
                ([revParseCmd, symRefCmd, addAllCmd, resetLogCmd, resetAppCmd],
                 UiMsg.err (failCreate (gitOpFailed e)))
              | Except.ok _ =>
                match env.exec (commitCmd003 note) with
                | Except.error e =>
                  ([revParseCmd, symRefCmd, addAllCmd, resetLogCmd, resetAppCmd,
                    commitCmd003 note],
                   UiMsg.err (failCreate (gitOpFailed e)))
                | Except.ok _ =>
                  match env.exec pushCmd with
                  | Except.ok _ =>
                    ([revParseCmd, symRefCmd, addAllCmd, resetLogCmd, resetAppCmd,
                      commitCmd003 note, pushCmd],
                     UiMsg.info createdMsg)
                  | Except.error _ =>
                    match env.exec (upstreamCmd (jsTrim branchOut)) with
                    | Except.ok _ =>
                      ([revParseCmd, symRefCmd, addAllCmd, resetLogCmd, resetAppCmd,
                        commitCmd003 note, pushCmd, upstreamCmd (jsTrim branchOut)],
                       UiMsg.info createdMsg)
                    | Except.error e2 =>
                      ([revParseCmd, symRefCmd, addAllCmd, resetLogCmd, resetAppCmd,
                        commitCmd003 note, pushCmd, upstreamCmd (jsTrim branchOut)],
                       UiMsg.err (failCreate (gitOpFailed (failPush e2))))

/-- `revertToMilestone` of `part_003`: check the workspace and repository,
read the branch, reject protected branches case-insensitively, ask for
confirmation, then stage, hard-reset, clean and force-push, with every
throw caught and wrapped as in the source. -/
def revertToMilestone003 (env : Env) (hash : Str) : List Str × UiMsg :=
  match env.workspace with
  | none => ([], UiMsg.err (failRevert noWorkspaceMsg))
  | some _ =>
    match env.exec revParseCmd with
    | Except.error _ => ([revParseCmd], UiMsg.err notRepoMsg)
    | Except.ok _ =>
      match env.exec symRefCmd with
      | Except.error e => ([revParseCmd, symRefCmd], UiMsg.err (failRevert e))
      | Except.ok branchOut =>
        if isBaseBranch env.additionalBaseBranches (jsTrim branchOut) then
          ([revParseCmd, symRefCmd],
           UiMsg.err (protectedMsg (jsTrim branchOut)
             (getBaseBranches env.additionalBaseBranches)))
        else if env.confirmReset = false then
          ([revParseCmd, symRefCmd], UiMsg.silent)
        else
          match env.exec addACmd with
          | Except.error e =>
            ([revParseCmd, symRefCmd, addACmd], UiMsg.err (failRevert (gitOpFailed e)))
          | Except.ok _ =>
            match env.exec (resetHardCmd hash) with
            | Except.error e =>
              ([revParseCmd, symRefCmd, addACmd, resetHardCmd hash],
               UiMsg.err (failRevert (gitOpFailed e)))
            | Except.ok _ =>
              match env.exec cleanCmd with
              | Except.error e =>
                ([revParseCmd, symRefCmd, addACmd, resetHardCmd hash, cleanCmd],
                 UiMsg.err (failRevert (gitOpFailed e)))
              | Except.ok _ =>
                match env.exec (forcePushCmd (jsTrim branchOut)) with
                | Except.error e =>
                  ([revParseCmd, symRefCmd, addACmd, resetHardCmd hash, cleanCmd,
                    forcePushCmd (jsTrim branchOut)],
                   UiMsg.err (failRevert (gitOpFailed e)))
                | Except.ok _ =>
                  ([revParseCmd, symRefCmd, addACmd, resetHardCmd hash, cleanCmd,
                    forcePushCmd (jsTrim branchOut)],
                   UiMsg.info revertedMsg)

/-- The unstaging loop of `filterIgnoredFiles`: `git reset` each matching
file in order; a rejected command throws, which the enclosing catch
swallows, so the loop simply stops after the failing command. -/
def resetLoop (env : Env) : List Str → List Str
  | [] => []
  | f :: fs =>
    if jsTrim f = [] then resetLoop env fs
    else
      match env.exec (resetFileCmd f) with
      | Except.error _ => [resetFileCmd f]
      | Except.ok _ => resetFileCmd f :: resetLoop env fs

/-- `filterIgnoredFiles` of the README revision: read the configured
pattern; when it is blank do nothing; when `new RegExp(pattern)` throws
(`regexValid` false) the catch swallows it; otherwise list the staged
files and unstage every file matching the pattern.  Every failure inside
is caught and only logged, so the function always returns normally; its
value is the list of commands it issued. -/
def filterIgnoredFiles (env : Env) : List Str :=
  if jsTrim env.ignoredFilesPattern = [] then []
  else if env.regexValid env.ignoredFilesPattern = false then []
  else
    match env.exec diffCachedCmd with
    | Except.error _ => [diffCachedCmd]
    | Except.ok out =>
      if jsTrim out = [] then [diffCachedCmd]
      else
        diffCachedCmd ::
          resetLoop env
            ((((jsSplit nlSep out).map jsTrim).filter (fun f => f ≠ [])).filter
              (env.regexTest env.ignoredFilesPattern))

/-- `createMilestone` of the README (feat-scheme) revision: like
`createMilestone003` but staging is followed by `filterIgnoredFiles`
(whose internal failures are all swallowed) and the commit subject is
`encodeSubjectFeat note`. -/
def createMilestoneFeat (env : Env) : List Str × UiMsg :=
  match env.workspace with
  | none => ([], UiMsg.err (failCreate noWorkspaceMsg))
  | some _ =>
    match env.exec revParseCmd with
    | Except.error _ => ([revParseCmd], UiMsg.err notRepoMsg)
    | Except.ok _ =>
      match env.noteInput with
      | none => ([revParseCmd], UiMsg.silent)
      | some note =>
        match env.exec symRefCmd with
        | Except.error e => ([revParseCmd, symRefCmd], UiMsg.err (failCreate e))
        | Except.ok branchOut =>
          match env.exec addAllCmd with
          | Except.error e =>
            ([revParseCmd, symRefCmd, addAllCmd], UiMsg.err (failCreate (gitOpFailed e)))
          | Except.ok _ =>
            match env.exec (commitCmdFeat note) with
            | Except.error e =>
              ([revParseCmd, symRefCmd, addAllCmd] ++ filterIgnoredFiles env ++
                 [commitCmdFeat note],
               UiMsg.err (failCreate (gitOpFailed e)))
            | Except.ok _ =>
              match env.exec pushCmd with
              | Except.ok _ =>
                ([revParseCmd, symRefCmd, addAllCmd] ++ filterIgnoredFiles env ++
                   [commitCmdFeat note, pushCmd],
                 UiMsg.info createdMsg)
              | Except.error _ =>
                match env.exec (upstreamCmd (jsTrim branchOut)) with
                | Except.ok _ =>
                  ([revParseCmd, symRefCmd, addAllCmd] ++ filterIgnoredFiles env ++
                     [commitCmdFeat note, pushCmd, upstreamCmd (jsTrim branchOut)],
                   UiMsg.info createdMsg)
                | Except.error e2 =>
                  ([revParseCmd, symRefCmd, addAllCmd] ++ filterIgnoredFiles env ++
                     [commitCmdFeat note, pushCmd, upstreamCmd (jsTrim branchOut)],
                   UiMsg.err (failCreate (gitOpFailed (failPush e2))))

/-! ## Properties of the string model -/

theorem prefixOf_append_self : ∀ (l t : Str), l.isPrefixOf (l ++ t) = true
  | [], _ => by simp [List.isPrefixOf]
  | c :: l, t => by simp [List.isPrefixOf, prefixOf_append_self l t]

theorem eq_append_of_prefixOf : ∀ {p l : Str}, p.isPrefixOf l = true → ∃ t, l = p ++ t
  | [], l, _ => ⟨l, rfl⟩
  | c :: p, [], h => by simp [List.isPrefixOf] at h
  | c :: p, b :: l, h => by
    simp only [List.isPrefixOf, Bool.and_eq_true, beq_iff_eq] at h
    obtain ⟨t, ht⟩ := eq_append_of_prefixOf h.2
    exact ⟨t, by simp [h.1, ht]⟩

theorem jsSplitGo_nil (sep : Str) (f : Nat) : jsSplitGo sep f [] = [[]] := by
  cases f <;> rfl

theorem jsSplitGo_zero_cons (sep : Str) (c : Char) (rest : Str) :
    jsSplitGo sep 0 (c :: rest) = [c :: rest] := rfl

theorem jsSplitGo_succ_cons (sep : Str) (f : Nat) (c : Char) (rest : Str) :
    jsSplitGo sep (f + 1) (c :: rest) =
      if sep.isEmpty = false ∧ sep.isPrefixOf (c :: rest) = true then
        [] :: jsSplitGo sep f ((c :: rest).drop sep.length)
      else
        match jsSplitGo sep f rest with
        | [] => [c] :: []
        | r :: rs => (c :: r) :: rs := rfl

theorem jsSplitGo_fuel :
    ∀ (n : Nat) (sep s : Str), s.length ≤ n → ∀ f₁ f₂ : Nat,
      s.length ≤ f₁ → s.length ≤ f₂ → jsSplitGo sep f₁ s = jsSplitGo sep f₂ s := by
  intro n
  induction n with
  | zero =>
    intro sep s hs f₁ f₂ _ _
    have : s = [] := List.eq_nil_of_length_eq_zero (Nat.le_zero.mp hs)
    subst this
    rw [jsSplitGo_nil, jsSplitGo_nil]
  | succ n ih =>
    intro sep s hs f₁ f₂ h₁ h₂
    match s with
    | [] => rw [jsSplitGo_nil, jsSplitGo_nil]
    | c :: rest =>
      match f₁, f₂ with
      | g₁ + 1, g₂ + 1 =>
        rw [jsSplitGo_succ_cons, jsSplitGo_succ_cons]
        by_cases hc : sep.isEmpty = false ∧ sep.isPrefixOf (c :: rest) = true
        · rw [if_pos hc, if_pos hc]
          have hlen : 0 < sep.length := by
            cases sep with
            | nil => simp at hc
            | cons x xs => simp
          have hd : ((c :: rest).drop sep.length).length ≤ n := by
            simp only [List.length_drop, List.length_cons]
            simp only [List.length_cons] at hs
            omega
          have hg₁ : ((c :: rest).drop sep.length).length ≤ g₁ := by
            simp only [List.length_drop, List.length_cons]
            simp only [List.length_cons] at h₁
            omega
          have hg₂ : ((c :: rest).drop sep.length).length ≤ g₂ := by
            simp only [List.length_drop, List.length_cons]
            simp only [List.length_cons] at h₂
            omega
          rw [ih sep _ hd g₁ g₂ hg₁ hg₂]
        · rw [if_neg hc, if_neg hc]
          have hrest : rest.length ≤ n := by
            simp only [List.length_cons] at hs; omega
          have hr₁ : rest.length ≤ g₁ := by
            simp only [List.length_cons] at h₁; omega
          have hr₂ : rest.length ≤ g₂ := by
            simp only [List.length_cons] at h₂; omega
          rw [ih sep rest hrest g₁ g₂ hr₁ hr₂]

theorem jsSplitGo_eq_jsSplit (sep s : Str) (f : Nat) (hf : s.length ≤ f) :
    jsSplitGo sep f s = jsSplit sep s :=
  jsSplitGo_fuel s.length sep s le_rfl f s.length hf le_rfl

theorem containsSeq_false_no_occ {pat : Str} :
    ∀ {l : Str}, containsSeq pat l = false → ∀ i, pat.isPrefixOf (l.drop i) = false := by
  intro l
  induction l with
  | nil =>
    intro h i
    simp only [containsSeq] at h
    match pat, h with
    | c :: p, _ => simp [List.isPrefixOf]
  | cons c rest ih =>
    intro h i
    simp only [containsSeq, Bool.or_eq_false_iff] at h
    match i with
    | 0 => exact h.1
    | i + 1 => exact ih h.2 i

theorem containsSeq_true_of_occ {pat : Str} :
    ∀ {l : Str} (i : Nat), pat.isPrefixOf (l.drop i) = true → containsSeq pat l = true := by
  intro l
  induction l with
  | nil =>
    intro i h
    simp only [List.drop_nil] at h
    match pat, h with
    | [], _ => rfl
  | cons c rest ih =>
    intro i h
    simp only [containsSeq, Bool.or_eq_true]
    match i with
    | 0 => exact Or.inl h
    | i + 1 => exact Or.inr (ih i h)

theorem jsSplit_no_occ (sep : Str) :
    ∀ a : Str, (∀ i, sep.isPrefixOf (a.drop i) = false) → jsSplit sep a = [a] := by
  intro a
  induction a with
  | nil => intro _; rfl
  | cons c rest ih =>
    intro h
    show jsSplitGo sep (rest.length + 1) (c :: rest) = [c :: rest]
    rw [jsSplitGo_succ_cons]
    rw [if_neg (by
      intro hc
      have h0 := h 0
      rw [List.drop_zero] at h0
      rw [h0] at hc
      exact absurd hc.2 (by simp))]
    have : jsSplitGo sep rest.length rest = [rest] := ih (fun i => h (i + 1))
    rw [this]

theorem jsSplit_step (sep : Str) (hsep : sep ≠ []) :
    ∀ (a b : Str),
      (∀ i, i < a.length → sep.isPrefixOf ((a ++ (sep ++ b)).drop i) = false) →
      jsSplit sep (a ++ (sep ++ b)) = a :: jsSplit sep b := by
  intro a
  induction a with
  | nil =>
    intro b _
    simp only [List.nil_append]
    match sep, hsep with
    | sc :: sep', _ =>
      show jsSplitGo (sc :: sep') ((sc :: sep') ++ b).length ((sc :: sep') ++ b) = _
      rw [List.cons_append, List.length_cons, jsSplitGo_succ_cons]
      rw [if_pos ⟨rfl, by rw [← List.cons_append]; exact prefixOf_append_self _ b⟩]
      rw [← List.cons_append, List.drop_left]
      rw [jsSplitGo_eq_jsSplit _ _ _ (by simp [List.length_append])]
  | cons c a' ih =>
    intro b h
    show jsSplitGo _ ((c :: a') ++ (sep ++ b)).length ((c :: a') ++ (sep ++ b)) = _
    rw [List.cons_append, List.length_cons, jsSplitGo_succ_cons]
    rw [if_neg (by
      intro hc
      have h0 := h 0 (by simp)
      rw [List.drop_zero, List.cons_append] at h0
      rw [h0] at hc
      exact absurd hc.2 (by simp))]
    have harg : jsSplitGo sep (a' ++ (sep ++ b)).length (a' ++ (sep ++ b)) =
        jsSplit sep (a' ++ (sep ++ b)) := rfl
    rw [harg, ih b (fun i hi => by
      have := h (i + 1) (by simpa using Nat.succ_lt_succ hi)
      rwa [List.cons_append, List.drop_succ_cons] at this)]

theorem noBar_mem {a : Str} (ha : noBar a = true) {c : Char} (hc : c ∈ a) : c ≠ '|' := by
  simp only [noBar, List.all_eq_true, decide_eq_true_eq] at ha
  exact ha c hc

theorem bar3_not_prefixOf {w : Str} {c : Char} (hc : c ≠ '|') :
    bar3.isPrefixOf (c :: w) = false := by
  simp only [bar3, List.isPrefixOf, Bool.and_eq_false_iff]
  left
  simpa [beq_eq_false_iff_ne] using fun h => hc h.symm

theorem noBar_no_occ {a : Str} (z : Str) (ha : noBar a = true) {i : Nat}
    (hi : i < a.length) : bar3.isPrefixOf ((a ++ z).drop i) = false := by
  rw [List.drop_append_eq_append_drop, Nat.sub_eq_zero_of_le (Nat.le_of_lt hi),
    List.drop_zero, List.drop_eq_getElem_cons hi, List.cons_append]
  exact bar3_not_prefixOf (noBar_mem ha (List.getElem_mem hi))

theorem noBar_no_occ_all {a : Str} (ha : noBar a = true) (i : Nat) :
    bar3.isPrefixOf (a.drop i) = false := by
  by_cases hi : i < a.length
  · have := noBar_no_occ [] ha hi
    rwa [List.append_nil] at this
  · rw [List.drop_eq_nil_of_le (Nat.le_of_not_lt hi)]
    rfl

theorem prefixOf_getElem {p l : Str} (h : p.isPrefixOf l = true) {k : Nat}
    (hk : k < p.length) : l[k]? = p[k]? := by
  obtain ⟨t, ht⟩ := eq_append_of_prefixOf h
  rw [ht, List.getElem?_append, if_pos hk]

theorem mid_no_occ {u x v : Str} (z : Str) (hu : noBar u = true) (hv : noBar v = true)
    (hvlen : 3 ≤ v.length) (hx : containsSeq bar3 x = false) :
    ∀ i, i < (u ++ (x ++ v)).length →
      bar3.isPrefixOf (((u ++ (x ++ v)) ++ z).drop i) = false := by
  intro i hi
  by_contra hocc
  have hocc' : bar3.isPrefixOf (((u ++ (x ++ v)) ++ z).drop i) = true :=
    eq_true_of_ne_false hocc
  have hbar : ∀ k, k < 3 → ((u ++ (x ++ v)) ++ z)[i + k]? = some '|' := by
    intro k hk
    have h1 : (((u ++ (x ++ v)) ++ z).drop i)[k]? = bar3[k]? :=
      prefixOf_getElem hocc' (by simpa [bar3] using hk)
    rw [List.getElem?_drop] at h1
    rw [h1]
    match k, hk with
    | 0, _ => rfl
    | 1, _ => rfl
    | 2, _ => rfl
  have hs : ∀ j, j < (u ++ (x ++ v)).length →
      ((u ++ (x ++ v)) ++ z)[j]? = (u ++ (x ++ v))[j]? := by
    intro j hj
    rw [List.getElem?_append, if_pos hj]
  have hslen : (u ++ (x ++ v)).length = u.length + x.length + v.length := by
    simp [List.length_append]; omega
  -- the first bar cannot sit inside u
  have hui : u.length ≤ i := by
    by_contra hlt
    have hltu : i < u.length := Nat.lt_of_not_le hlt
    have h0 := hbar 0 (by omega)
    rw [Nat.add_zero, hs i hi, List.getElem?_append, if_pos hltu,
      List.getElem?_eq_getElem hltu] at h0
    exact noBar_mem hu (List.getElem_mem hltu) (Option.some.inj h0)
  -- none of the three bars can sit inside v, so all are inside x
  have hinV : ∀ k, k < 3 → i + k < (u ++ (x ++ v)).length →
      ¬ u.length + x.length ≤ i + k := by
    intro k hk hiv hgev
    have h0 := hbar k hk
    rw [hs (i + k) hiv, List.getElem?_append,
      if_neg (by omega), List.getElem?_append,
      if_neg (by simp only [List.length_append] at *; omega)] at h0
    have hvk : i + k - u.length - x.length < v.length := by
      simp only [List.length_append] at *
      omega
    rw [List.getElem?_eq_getElem hvk] at h0
    exact noBar_mem hv (List.getElem_mem hvk) (Option.some.inj h0)
  have hux : i < u.length + x.length := by
    by_contra hge
    exact hinV 0 (by omega) (by omega) (by omega)
  have hxk : ∀ k, k < 3 → i + k < u.length + x.length := by
    intro k hk
    by_contra hge
    refine hinV k hk ?_ (by omega)
    rw [hslen]
    omega
  have hxget : ∀ k, k < 3 → x[i - u.length + k]? = some '|' := by
    intro k hk
    have hik : i + k < (u ++ (x ++ v)).length := by
      rw [hslen]
      have := hxk k hk
      omega
    have h0 := hbar k hk
    rw [hs (i + k) hik, List.getElem?_append, if_neg (by omega),
      List.getElem?_append, if_pos (by have := hxk k hk; omega)] at h0
    have harith : i + k - u.length = i - u.length + k := by omega
    rwa [harith] at h0
  have h0 := hxget 0 (by omega)
  have h1 := hxget 1 (by omega)
  have h2 := hxget 2 (by omega)
  rw [Nat.add_zero] at h0
  obtain ⟨hb0, he0⟩ := List.getElem?_eq_some.mp h0
  obtain ⟨hb1, he1⟩ := List.getElem?_eq_some.mp h1
  obtain ⟨hb2, he2⟩ := List.getElem?_eq_some.mp h2
  have hdrop : x.drop (i - u.length) =
      '|' :: ('|' :: ('|' :: x.drop (i - u.length + 2 + 1))) := by
    rw [List.drop_eq_getElem_cons hb0, he0, List.drop_eq_getElem_cons hb1, he1,
      List.drop_eq_getElem_cons hb2, he2]
  have : containsSeq bar3 x = true := by
    refine containsSeq_true_of_occ (i - u.length) ?_
    rw [hdrop]
    simp [bar3, List.isPrefixOf]
  rw [hx] at this
  exact absurd this (by simp)

theorem jsSplit_logLine {hash subj date dt : Str} (hh : noBar hash = true)
    (hd : noBar date = true) (ht : noBar dt = true)
    (hs : ∀ i, i < subj.length →
      bar3.isPrefixOf ((subj ++ (bar3 ++ (date ++ (bar3 ++ dt)))).drop i) = false) :
    jsSplit bar3 (mkLogLine hash subj date dt) = [hash, subj, date, dt] := by
  have hbar : bar3 ≠ [] := by simp [bar3]
  have hline : mkLogLine hash subj date dt =
      hash ++ (bar3 ++ (subj ++ (bar3 ++ (date ++ (bar3 ++ dt))))) := by
    simp [mkLogLine, List.append_assoc]
  rw [hline]
  rw [jsSplit_step bar3 hbar hash _ (fun i hi => noBar_no_occ _ hh hi)]
  rw [jsSplit_step bar3 hbar subj _ hs]
  rw [jsSplit_step bar3 hbar date _ (fun i hi => noBar_no_occ _ hd hi)]
  rw [jsSplit_no_occ bar3 dt (noBar_no_occ_all ht)]

theorem dropWhile_cons_of_neg {p : Char → Bool} {c : Char} {l : Str} (h : p c = false) :
    List.dropWhile p (c :: l) = c :: l := by
  simp [List.dropWhile, h]

theorem removeFeatLead_encode {m : Str} (hm : m ≠ [])
    (hh : (m.head?.all fun c => !wsChar c) = true) :
    removeFeatLead (featPre ++ (m ++ savedSfx)) = m ++ savedSfx := by
  have heq : featPre ++ (m ++ savedSfx) = featColon ++ (' ' :: (m ++ savedSfx)) := rfl
  rw [removeFeatLead, heq, if_pos (prefixOf_append_self featColon _), List.drop_left]
  have hws : wsChar ' ' = true := by decide
  rw [List.dropWhile_cons, if_pos hws]
  match m, hm with
  | c :: m', _ =>
    have hc : wsChar c = false := by
      simp only [List.head?_cons, Option.all_some, Bool.not_eq_eq_eq_not,
        Bool.not_true] at hh
      exact hh
    rw [List.cons_append, dropWhile_cons_of_neg hc]

theorem removeSavedTail_append {m : Str}
    (hl : (m.reverse.head?.all fun c => !wsChar c) = true) :
    removeSavedTail (m ++ savedSfx) = m := by
  have hsfx : savedSfx = ' ' :: savedLit := rfl
  have hsuf : savedLit.isSuffixOf (m ++ savedSfx) = true := by
    show savedLit.reverse.isPrefixOf (m ++ savedSfx).reverse = true
    rw [List.reverse_append, hsfx, List.reverse_cons]
    rw [List.append_assoc]
    exact prefixOf_append_self savedLit.reverse _
  rw [removeSavedTail, if_pos hsuf]
  have hlen : (m ++ savedSfx).length - savedLit.length = m.length + 1 := by
    simp [List.length_append, savedSfx, savedLit]
  rw [hlen]
  have htake : (m ++ savedSfx).take (m.length + 1) = m ++ [' '] := by
    rw [List.take_append]
    rfl
  rw [htake, revDropWs, List.reverse_append]
  have h1 : ([' '] : Str).reverse = [' '] := rfl
  rw [h1]
  have hws : wsChar ' ' = true := by decide
  rw [List.cons_append, List.nil_append, List.dropWhile_cons, if_pos hws]
  match hrev : m.reverse with
  | [] =>
    have : m = [] := by simpa using congrArg List.reverse hrev
    simp [this]
  | c :: r =>
    have hc : wsChar c = false := by
      rw [hrev] at hl
      simp only [List.head?_cons, Option.all_some, Bool.not_eq_eq_eq_not,
        Bool.not_true] at hl
      exact hl
    rw [dropWhile_cons_of_neg hc, ← hrev, List.reverse_reverse]

theorem cleanMessage_encode {m : Str} (hm : m ≠ [])
    (hh : (m.head?.all fun c => !wsChar c) = true)
    (hl : (m.reverse.head?.all fun c => !wsChar c) = true) :
    cleanMessage (featPre ++ (m ++ savedSfx)) = m := by
  rw [cleanMessage, removeFeatLead_encode hm hh, removeSavedTail_append hl]

/-! ## C1: round-trip of a single encoded line -/

/-- The whitespace-only note refuting the unrestricted round-trip claim. -/
def c1Note : Str := " ".data

/-- A well-formed log line whose subject encodes the whitespace-only note. -/
def c1Line : Str :=
  mkLogLine ("a1b2c3".data) (encodeSubjectFeat c1Note) ("2024-05-06".data)
    ("2024-05-06 07:08:09 +0000".data)

/-- C1 is false as stated: for the non-empty note `" "` (a single space),
decoding the single well-formed line whose subject is `Encode(" ", b)`
yields one record whose message is `""`, not `" "` — the cleaning regex
`/^feat:\s*/` swallows the note's whitespace and `/\s*saved as milestone$/`
swallows what remains. -/
theorem decodeFeat_whitespace_note_counterexample :
    c1Note ≠ [] ∧
    (decodeLinesFeat [c1Line]).map (List.map Milestone.message) = some [[]] ∧
    ([] : Str) ≠ c1Note := by
  refine ⟨by decide, by decide, by decide⟩

/-- C1 (amended): for every branch `b` and every note `n` that contains no
occurrence of the field delimiter `|||` and neither starts nor ends with
whitespace, and for every hash, date and date-time field free of `'|'`,
decoding the single well-formed log line whose subject field is
`Encode(n, b)` (feat scheme, README revision — the branch is not embedded)
yields exactly one record whose message is `n` when `n` is non-empty and
the default placeholder `"No note provided"` when `n` is empty. -/
theorem decodeFeat_single_line_roundtrip (n b hash date dt : Str)
    (hn : containsSeq bar3 n = false)
    (hhead : (n.head?.all fun c => !wsChar c) = true)
    (hlast : (n.reverse.head?.all fun c => !wsChar c) = true)
    (hhash : noBar hash = true) (hdate : noBar date = true) (hdt : noBar dt = true) :
    (decodeLinesFeat [mkLogLine hash (encodeSubjectFeat n) date dt]).map
        (List.map Milestone.message) = some [if n = [] then defaultNote else n] := by
  have hm_ne : jsOrDefault n ≠ [] := by
    rw [jsOrDefault]
    by_cases h : n = []
    · rw [if_pos h]; decide
    · rwa [if_neg h]
  have hm_head : ((jsOrDefault n).head?.all fun c => !wsChar c) = true := by
    rw [jsOrDefault]
    by_cases h : n = []
    · rw [if_pos h]; decide
    · rwa [if_neg h]
  have hm_last : ((jsOrDefault n).reverse.head?.all fun c => !wsChar c) = true := by
    rw [jsOrDefault]
    by_cases h : n = []
    · rw [if_pos h]; decide
    · rwa [if_neg h]
  have hm_seq : containsSeq bar3 (jsOrDefault n) = false := by
    rw [jsOrDefault]
    by_cases h : n = []
    · rw [if_pos h]; decide
    · rwa [if_neg h]
  have hsubj : encodeSubjectFeat n = featPre ++ (jsOrDefault n ++ savedSfx) := by
    rw [encodeSubjectFeat, List.append_assoc]
  have hs : ∀ i, i < (encodeSubjectFeat n).length →
      bar3.isPrefixOf
        ((encodeSubjectFeat n ++ (bar3 ++ (date ++ (bar3 ++ dt)))).drop i) = false := by
    rw [hsubj]
    exact mid_no_occ _ (by decide) (by decide) (by decide) hm_seq
  have hsplit := jsSplit_logLine hhash hdate hdt hs
  have hdec : decodeLineFeat (mkLogLine hash (encodeSubjectFeat n) date dt) =
      Except.ok
        { hash := hash
          message := cleanMessage (encodeSubjectFeat n)
          date := date
          time := (jsSplit spSep dt)[1]? } := by
    rw [decodeLineFeat, hsplit]
    rfl
  have hclean : cleanMessage (encodeSubjectFeat n) = jsOrDefault n := by
    rw [hsubj]
    exact cleanMessage_encode hm_ne hm_head hm_last
  rw [decodeLinesFeat, hdec]
  simp only [decodeLinesFeat, Option.map_some]
  rw [hclean]
  rfl

/-- Witness: the amended C1 theorem applied at the note `"fix bug"` on the
branch `"dev"` with a concrete hash, date and date-time. -/
theorem decodeFeat_single_line_roundtrip_witness :
    (decodeLinesFeat [mkLogLine ("a1b2c3".data) (encodeSubjectFeat ("fix bug".data))
        ("2024-05-06".data) ("2024-05-06 07:08:09 +0000".data)]).map
        (List.map Milestone.message) =
      some [if ("fix bug".data : Str) = [] then defaultNote else "fix bug".data] :=
  decodeFeat_single_line_roundtrip ("fix bug".data) ("dev".data) ("a1b2c3".data)
    ("2024-05-06".data) ("2024-05-06 07:08:09 +0000".data)
    (by decide) (by decide) (by decide) (by decide) (by decide) (by decide)

/-! ## C2 / C8: behaviour of the tag-scheme decode on whole blocks -/

theorem decodeLineTag_eq_ok_keptTag {cur l : Str} (h4 : 4 ≤ (jsSplit bar3 l).length) :
    decodeLineTag cur l = Except.ok (keptTag cur l) := by
  cases hd : decodeLineTag cur l with
  | error e =>
    exfalso
    rw [decodeLineTag] at hd
    split_ifs at hd with h1 h2 h3 h4'
    · omega
    · omega
  | ok o =>
    rw [keptTag, hd]
    cases o <;> rfl

theorem decodeLinesTag_some_eq_filterMap {cur : Str} :
    ∀ {lines : List Str} {rs : List Milestone},
      decodeLinesTag cur lines = some rs → rs = lines.filterMap (keptTag cur) := by
  intro lines
  induction lines with
  | nil =>
    intro rs h
    simp only [decodeLinesTag, Option.some.injEq] at h
    simp [← h]
  | cons l ls ih =>
    intro rs h
    rw [decodeLinesTag] at h
    rw [List.filterMap_cons]
    cases hd : decodeLineTag cur l with
    | error e => rw [hd] at h; cases h
    | ok o =>
      rw [hd] at h
      have hk : keptTag cur l = o := by rw [keptTag, hd]; cases o <;> rfl
      rw [hk]
      cases o with
      | none => exact ih h
      | some m =>
        cases hrec : decodeLinesTag cur ls with
        | none => rw [hrec] at h; cases h
        | some rs' =>
          rw [hrec] at h
          have h' : m :: rs' = rs := by simpa using h
          show rs = m :: List.filterMap (keptTag cur) ls
          rw [← h', ih hrec]

/-- C2 is false as stated: this block has three well-formed lines and one
line missing the date-time field; instead of dropping the malformed line
and keeping three records, the decoder throws on it (`datetime` is
`undefined`), `getMilestones` catches the throw at its boundary, and the
whole listing comes back empty — the well-formed lines are lost. -/
def c2Block : Str :=
  ("1111|||Milestone: first|||2024-01-01|||2024-01-01 10:00:00 +0000\n" ++
   "2222|||Milestone: second|||2024-01-02|||2024-01-02 11:00:00 +0000\n" ++
   "3333|||Milestone: third|||2024-01-03|||2024-01-03 12:00:00 +0000\n" ++
   "4444|||Milestone: broken|||2024-01-04").data

/-- An environment whose listing query returns `c2Block`. -/
def c2Env : Env :=
  { workspace := some ("ws".data)
    exec := fun _ => Except.ok c2Block
    noteInput := none
    confirmReset := false
    additionalBaseBranches := []
    ignoredFilesPattern := []
    regexValid := fun _ => true
    regexTest := fun _ _ => false }

set_option maxRecDepth 4000 in
/-- C2 counterexample: on a block of 3 well-formed lines and 1 line missing
the date-time field, the decode aborts (`none`, a caught `TypeError`) and
`getMilestones` returns the empty list — not the 3 records the claim
promises, and the malformed line did cause the loss of the well-formed
ones. -/
theorem decode_malformed_line_loses_block :
    (jsSplit nlSep c2Block).length = 4 ∧
    (∀ l ∈ (jsSplit nlSep c2Block).take 3, (jsSplit bar3 l).length = 4) ∧
    (jsSplit bar3 ((jsSplit nlSep c2Block).getD 3 [])).length = 3 ∧
    decodeLines003 (jsSplit nlSep c2Block) = none ∧
    getMilestones003 c2Env = [] ∧
    (getMilestones003 c2Env).length ≠ 3 := by
  refine ⟨by decide, by decide, by decide, by rfl, by rfl, by decide⟩

/-- C2 (amended): the tag-scheme decode silently drops exactly the lines
whose subject has fewer than five `___`-parts or whose embedded branch
differs from the current one, returning one record per surviving line —
provided every line splits into at least the required four `|||`-fields.
A line that instead throws (for example one missing the date-time field
while carrying a branch-matching milestone tag) makes the whole decode
fail, so the well-formed lines are lost with it. -/
theorem decodeTag_drop_characterization :
    (∀ cur lines, (∀ l ∈ lines, 4 ≤ (jsSplit bar3 l).length) →
        decodeLinesTag cur lines = some (lines.filterMap (keptTag cur))) ∧
    (∀ cur lines l, l ∈ lines → decodeLineTag cur l = Except.error () →
        decodeLinesTag cur lines = none) := by
  constructor
  · intro cur lines h
    induction lines with
    | nil => rfl
    | cons l ls ih =>
      have h4 := h l (List.mem_cons_self l ls)
      have hrec := ih (fun x hx => h x (List.mem_cons_of_mem l hx))
      rw [decodeLinesTag, decodeLineTag_eq_ok_keptTag h4]
      cases hk : keptTag cur l with
      | none =>
        show decodeLinesTag cur ls = _
        rw [List.filterMap_cons, hk]
        exact hrec
      | some m =>
        show (decodeLinesTag cur ls).map _ = _
        rw [hrec, List.filterMap_cons, hk]
        rfl
  · intro cur lines l hmem herr
    induction lines with
    | nil => cases hmem
    | cons x ls ih =>
      rw [decodeLinesTag]
      rcases List.mem_cons.mp hmem with hx | hx
      · rw [← hx, herr]
      · have hih := ih hx
        cases hd : decodeLineTag cur x with
        | error e => rfl
        | ok o =>
          cases o with
          | none => exact hih
          | some m =>
            show (decodeLinesTag cur ls).map _ = _
            rw [hih]
            rfl

/-- The current branch of the tag-scheme examples. -/
def c2Branch : Str := "dev".data

/-- A well-formed tag-scheme line for the current branch. -/
def c2TagLineKept : Str :=
  "1111|||MSVE___BR___dev___MS___step one|||2024-01-02|||2024-01-02 10:00:00 +0000".data

/-- A well-formed line whose subject is not a milestone tag (dropped). -/
def c2TagLineDropped : Str :=
  "2222|||chore: unrelated|||2024-01-02|||2024-01-02 11:00:00 +0000".data

/-- A branch-matching milestone line missing the date-time field (throws). -/
def c2TagLineBad : Str :=
  "3333|||MSVE___BR___dev___MS___broken|||2024-01-03".data

set_option maxRecDepth 4000 in
/-- Witness: the amended C2 theorem applied to a concrete block — a kept
line plus a dropped line decode to the filtered records, and adding the
line missing its date-time field makes the whole decode fail. -/
theorem decodeTag_drop_characterization_witness :
    decodeLinesTag c2Branch [c2TagLineKept, c2TagLineDropped] =
      some ([c2TagLineKept, c2TagLineDropped].filterMap (keptTag c2Branch)) ∧
    decodeLinesTag c2Branch [c2TagLineKept, c2TagLineBad] = none :=
  ⟨decodeTag_drop_characterization.1 c2Branch _ (by decide),
   decodeTag_drop_characterization.2 c2Branch _ c2TagLineBad (by decide) (by rfl)⟩

/-- C8: the decode preserves input order — whenever the lines at positions
`i < j` both decode to kept records, those records appear in the output at
positions `p < q` (newest-first order of the upstream query is therefore
preserved). -/
theorem decodeTag_preserves_order (cur : Str) (lines : List Str) (rs : List Milestone)
    (i j : Nat) (li lj : Str) (mi mj : Milestone)
    (h : decodeLinesTag cur lines = some rs) (hij : i < j)
    (hi : lines[i]? = some li) (hdi : decodeLineTag cur li = Except.ok (some mi))
    (hj : lines[j]? = some lj) (hdj : decodeLineTag cur lj = Except.ok (some mj)) :
    ∃ p q : Nat, p < q ∧ rs[p]? = some mi ∧ rs[q]? = some mj := by
  have hrs := decodeLinesTag_some_eq_filterMap h
  have hki : keptTag cur li = some mi := by rw [keptTag, hdi]
  have hkj : keptTag cur lj = some mj := by rw [keptTag, hdj]
  obtain ⟨hbj, hgj⟩ := List.getElem?_eq_some.mp hj
  have hdecomp : lines = lines.take j ++ (lj :: lines.drop (j + 1)) := by
    conv_lhs => rw [← List.take_append_drop j lines]
    rw [List.drop_eq_getElem_cons hbj, hgj]
  have hiT : (lines.take j)[i]? = some li := by
    rw [List.getElem?_take, if_pos hij]; exact hi
  obtain ⟨hbi, hgi⟩ := List.getElem?_eq_some.mp hiT
  have hTdecomp : lines.take j =
      (lines.take j).take i ++ (li :: (lines.take j).drop (i + 1)) := by
    conv_lhs => rw [← List.take_append_drop i (lines.take j)]
    rw [List.drop_eq_getElem_cons hbi, hgi]
  have hrs2 : rs = (lines.take j).filterMap (keptTag cur) ++
      (mj :: (lines.drop (j + 1)).filterMap (keptTag cur)) := by
    rw [hrs]
    conv_lhs => rw [hdecomp]
    rw [List.filterMap_append, List.filterMap_cons, hkj]
  have hA : (lines.take j).filterMap (keptTag cur) =
      ((lines.take j).take i).filterMap (keptTag cur) ++
        (mi :: ((lines.take j).drop (i + 1)).filterMap (keptTag cur)) := by
    conv_lhs => rw [hTdecomp]
    rw [List.filterMap_append, List.filterMap_cons, hki]
  refine ⟨(((lines.take j).take i).filterMap (keptTag cur)).length,
    ((lines.take j).filterMap (keptTag cur)).length, ?_, ?_, ?_⟩
  · rw [hA]
    simp only [List.length_append, List.length_cons]
    omega
  · rw [hrs2, List.getElem?_append, if_pos (by
      rw [hA]
      simp only [List.length_append, List.length_cons]
      omega)]
    rw [hA, List.getElem?_append_right le_rfl, Nat.sub_self]
    exact List.getElem?_cons_zero
  · rw [hrs2, List.getElem?_append_right le_rfl, Nat.sub_self]
    exact List.getElem?_cons_zero

/-- A second well-formed tag-scheme line for the current branch. -/
def c8Line3 : Str :=
  "5555|||MSVE___BR___dev___MS___step two|||2024-01-05|||2024-01-05 12:00:00 +0000".data

/-- The record decoded from `c2TagLineKept`. -/
def c8Rec1 : Milestone :=
  { hash := "1111".data
    message := "Milestone: step one".data
    date := "2024-01-02".data
    time := some ("10:00:00".data) }

/-- The record decoded from `c8Line3`. -/
def c8Rec3 : Milestone :=
  { hash := "5555".data
    message := "Milestone: step two".data
    date := "2024-01-05".data
    time := some ("12:00:00".data) }

/-- Witness: order preservation applied to a concrete three-line block
whose middle line is dropped — the records of lines 0 and 2 appear in
order in the two-record output. -/
theorem decodeTag_preserves_order_witness :
    ∃ p q : Nat, p < q ∧
      ([c8Rec1, c8Rec3] : List Milestone)[p]? = some c8Rec1 ∧
      ([c8Rec1, c8Rec3] : List Milestone)[q]? = some c8Rec3 :=
  decodeTag_preserves_order c2Branch [c2TagLineKept, c2TagLineDropped, c8Line3]
    [c8Rec1, c8Rec3] 0 2 c2TagLineKept c8Line3 c8Rec1 c8Rec3
    (by rfl) (by decide) (by rfl) (by rfl) (by rfl) (by rfl)

/-! ## C3: listing failures degrade to the empty sequence -/

/-- C3: `getMilestones` returns the empty list both when the external
listing command fails for any reason and when it produces empty output.
It is a total function of the environment — every internal throw is
caught — and on both inputs the returned value is the same `[]`, so a
caller cannot distinguish "no milestones" from "listing failed". -/
theorem getMilestones_empty_on_failure_or_empty (env : Env) :
    ((∃ e, env.exec logCmd003 = Except.error e) ∨ env.exec logCmd003 = Except.ok []) →
    getMilestones003 env = [] := by
  intro h
  rw [getMilestones003]
  cases hw : env.workspace with
  | none => rfl
  | some w =>
    rcases h with ⟨e, he⟩ | he
    · rw [he]
    · rw [he]
      rfl

/-- An environment whose listing command is rejected. -/
def c3Env : Env :=
  { workspace := some ("ws".data)
    exec := fun _ => Except.error ("fatal: not a git repository".data)
    noteInput := none
    confirmReset := false
    additionalBaseBranches := []
    ignoredFilesPattern := []
    regexValid := fun _ => true
    regexTest := fun _ _ => false }

/-- Witness: the failing-listing environment yields the empty list. -/
theorem getMilestones_empty_on_failure_or_empty_witness :
    getMilestones003 c3Env = [] :=
  getMilestones_empty_on_failure_or_empty c3Env
    (Or.inl ⟨"fatal: not a git repository".data, rfl⟩)

/-! ## C4: precondition failures issue no state-changing command -/

/-- The operation ended in a user-visible error and its command trace
contains no state-changing command. -/
def abortsCleanly (r : List Str × UiMsg) : Prop :=
  (r.1.all fun c => !stateChangingCmd c) = true ∧ ∃ m, r.2 = UiMsg.err m

/-- C4: on every precondition-failure path — no workspace folder open, the
workspace not a git repository, or (for reversion) a protected current
branch — the operation reports an error and its trace holds only
read-only probes (`git rev-parse`, `git symbolic-ref`), so the repository
state is unchanged. -/
theorem preconditions_abort_without_state_change (env : Env) (hash : Str) :
    (env.workspace = none →
      abortsCleanly (createMilestone003 env) ∧
        abortsCleanly (revertToMilestone003 env hash)) ∧
    (∀ w e, env.workspace = some w → env.exec revParseCmd = Except.error e →
      abortsCleanly (createMilestone003 env) ∧
        abortsCleanly (revertToMilestone003 env hash)) ∧
    (∀ w r s, env.workspace = some w → env.exec revParseCmd = Except.ok r →
      env.exec symRefCmd = Except.ok s →
      isBaseBranch env.additionalBaseBranches (jsTrim s) = true →
      (revertToMilestone003 env hash).1 = [revParseCmd, symRefCmd] ∧
        abortsCleanly (revertToMilestone003 env hash)) := by
  refine ⟨?_, ?_, ?_⟩
  · intro hw
    simp only [createMilestone003, revertToMilestone003, hw]
    exact ⟨⟨by decide, ⟨_, rfl⟩⟩, ⟨by decide, ⟨_, rfl⟩⟩⟩
  · intro w e hw he
    simp only [createMilestone003, revertToMilestone003, hw, he]
    exact ⟨⟨by decide, ⟨_, rfl⟩⟩, ⟨by decide, ⟨_, rfl⟩⟩⟩
  · intro w r s hw hr hs hb
    simp only [revertToMilestone003, hw, hr, hs, hb, if_true]
    refine ⟨trivial, ⟨?_, ⟨_, rfl⟩⟩⟩
    show ([revParseCmd, symRefCmd].all fun c => !stateChangingCmd c) = true
    decide

/-- An environment with no workspace folder open. -/
def c4EnvNoWs : Env :=
  { workspace := none
    exec := fun _ => Except.ok []
    noteInput := none
    confirmReset := false
    additionalBaseBranches := []
    ignoredFilesPattern := []
    regexValid := fun _ => true
    regexTest := fun _ _ => false }

/-- An environment whose workspace is not a git repository. -/
def c4EnvNoRepo : Env :=
  { workspace := some ("ws".data)
    exec := fun _ => Except.error ("exit 128".data)
    noteInput := none
    confirmReset := false
    additionalBaseBranches := []
    ignoredFilesPattern := []
    regexValid := fun _ => true
    regexTest := fun _ _ => false }

/-- An environment whose current branch is the protected `main`. -/
def c4EnvProtected : Env :=
  { workspace := some ("ws".data)
    exec := fun _ => Except.ok ("main\n".data)
    noteInput := some ("x".data)
    confirmReset := true
    additionalBaseBranches := []
    ignoredFilesPattern := []
    regexValid := fun _ => true
    regexTest := fun _ _ => false }

/-- Witness: the three precondition-failure paths at concrete
environments, each aborting with an error and no state-changing command. -/
theorem preconditions_abort_without_state_change_witness :
    (abortsCleanly (createMilestone003 c4EnvNoWs) ∧
      abortsCleanly (revertToMilestone003 c4EnvNoWs ("abc".data))) ∧
    (abortsCleanly (createMilestone003 c4EnvNoRepo) ∧
      abortsCleanly (revertToMilestone003 c4EnvNoRepo ("abc".data))) ∧
    ((revertToMilestone003 c4EnvProtected ("abc".data)).1 = [revParseCmd, symRefCmd] ∧
      abortsCleanly (revertToMilestone003 c4EnvProtected ("abc".data))) :=
  ⟨(preconditions_abort_without_state_change c4EnvNoWs ("abc".data)).1 rfl,
   (preconditions_abort_without_state_change c4EnvNoRepo ("abc".data)).2.1
     ("ws".data) ("exit 128".data) rfl rfl,
   (preconditions_abort_without_state_change c4EnvProtected ("abc".data)).2.2
     ("ws".data) ("main\n".data) ("main\n".data) rfl rfl rfl (by decide)⟩

/-! ## C5: the protected-branch check is case-insensitive -/

/-- C5: the protected-branch test used by `revertToMilestone` succeeds
exactly when the lowercased current branch equals the lowercase of some
entry of the protected set; in particular the branch `Main` matches the
built-in entry `main` under the default (empty) configuration. -/
theorem protected_branch_check_case_insensitive (cfg cur : Str) :
    (isBaseBranch cfg cur = true ↔
      ∃ b ∈ getBaseBranches cfg, jsToLower b = jsToLower cur) ∧
    isBaseBranch [] ("Main".data) = true := by
  constructor
  · rw [isBaseBranch, List.any_eq_true]
    constructor
    · rintro ⟨b, hb, hbeq⟩
      exact ⟨b, hb, by rwa [beq_iff_eq] at hbeq⟩
    · rintro ⟨b, hb, hbeq⟩
      exact ⟨b, hb, by rwa [beq_iff_eq]⟩
  · decide

/-! ## C6: exactly one push fallback -/

/-- C6: when the preconditions hold and staging, the exclusion resets and
the commit all succeed, a successful `git push` ends the operation with no
fallback; a failed `git push` is followed by exactly one
`git push --set-upstream origin <branch>` attempt, and if that also fails
the operation reports the wrapped message
`Failed to create milestone: Git operation failed: Failed to push changes: <e>`
containing the underlying failure text, with no further retries — the
full command traces are given explicitly. -/
theorem createMilestone_push_fallback (env : Env) (w note r s a b1 b2 cm : Str)
    (hw : env.workspace = some w) (hr : env.exec revParseCmd = Except.ok r)
    (hn : env.noteInput = some note) (hs : env.exec symRefCmd = Except.ok s)
    (ha : env.exec addAllCmd = Except.ok a)
    (hb1 : env.exec resetLogCmd = Except.ok b1)
    (hb2 : env.exec resetAppCmd = Except.ok b2)
    (hc : env.exec (commitCmd003 note) = Except.ok cm) :
    (∀ p, env.exec pushCmd = Except.ok p →
      createMilestone003 env =
        ([revParseCmd, symRefCmd, addAllCmd, resetLogCmd, resetAppCmd,
          commitCmd003 note, pushCmd], UiMsg.info createdMsg)) ∧
    (∀ e, env.exec pushCmd = Except.error e →
      (∀ u, env.exec (upstreamCmd (jsTrim s)) = Except.ok u →
        createMilestone003 env =
          ([revParseCmd, symRefCmd, addAllCmd, resetLogCmd, resetAppCmd,
            commitCmd003 note, pushCmd, upstreamCmd (jsTrim s)],
           UiMsg.info createdMsg)) ∧
      (∀ e2, env.exec (upstreamCmd (jsTrim s)) = Except.error e2 →
        createMilestone003 env =
          ([revParseCmd, symRefCmd, addAllCmd, resetLogCmd, resetAppCmd,
            commitCmd003 note, pushCmd, upstreamCmd (jsTrim s)],
           UiMsg.err (failCreate (gitOpFailed (failPush e2)))))) := by
  refine ⟨?_, ?_⟩
  · intro p hp
    simp only [createMilestone003, hw, hr, hn, hs, ha, hb1, hb2, hc, hp]
  · intro e he
    refine ⟨?_, ?_⟩
    · intro u hu
      simp only [createMilestone003, hw, hr, hn, hs, ha, hb1, hb2, hc, he, hu]
    · intro e2 he2
      simp only [createMilestone003, hw, hr, hn, hs, ha, hb1, hb2, hc, he, he2]

/-- An environment where `git push` fails and the set-upstream fallback
also fails. -/
def c6Env : Env :=
  { workspace := some ("ws".data)
    exec := fun c =>
      if c = pushCmd then Except.error ("no upstream".data)
      else if c = upstreamCmd ("feature".data) then Except.error ("remote rejected".data)
      else Except.ok ("feature\n".data)
    noteInput := some ("alpha".data)
    confirmReset := true
    additionalBaseBranches := []
    ignoredFilesPattern := []
    regexValid := fun _ => true
    regexTest := fun _ _ => false }

/-- Witness: in `c6Env` the failed push triggers exactly one set-upstream
attempt and the doubly-wrapped error message carries the fallback's
failure text. -/
theorem createMilestone_push_fallback_witness :
    createMilestone003 c6Env =
      ([revParseCmd, symRefCmd, addAllCmd, resetLogCmd, resetAppCmd,
        commitCmd003 ("alpha".data), pushCmd, upstreamCmd ("feature".data)],
       UiMsg.err (failCreate (gitOpFailed (failPush ("remote rejected".data))))) :=
  ((createMilestone_push_fallback c6Env ("ws".data) ("alpha".data) ("feature\n".data)
      ("feature\n".data) ("feature\n".data) ("feature\n".data) ("feature\n".data)
      ("feature\n".data) rfl (by rfl) rfl (by rfl) (by rfl) (by rfl) (by rfl)
      (by rfl)).2 ("no upstream".data) (by rfl)).2 ("remote rejected".data) (by rfl)

/-! ## C7: parsing of the configured protected branches -/

/-- The spec's description of the configured entries: split the
`additionalBaseBranches` value on `;`, trim each segment, drop the empty
ones. -/
def specEntries (cfg : Str) : List Str :=
  ((jsSplit semiSep cfg).map jsTrim).filter (fun b => decide (0 < b.length))

theorem jsSplit_chunk_subset {sep : Str} :
    ∀ (fuel : Nat) (l piece : Str), piece ∈ jsSplitGo sep fuel l → ∀ c ∈ piece, c ∈ l := by
  intro fuel
  induction fuel with
  | zero =>
    intro l piece hp c hc
    cases l with
    | nil =>
      rw [jsSplitGo_nil] at hp
      rcases List.mem_cons.mp hp with h | h
      · subst h; cases hc
      · cases h
    | cons x xs =>
      rw [jsSplitGo_zero_cons] at hp
      have hp' : piece = x :: xs := by simpa using hp
      rwa [← hp']
  | succ f ih =>
    intro l piece hp c hc
    cases l with
    | nil =>
      rw [jsSplitGo_nil] at hp
      rcases List.mem_cons.mp hp with h | h
      · subst h; cases hc
      · cases h
    | cons x xs =>
      rw [jsSplitGo_succ_cons] at hp
      by_cases hcond : sep.isEmpty = false ∧ sep.isPrefixOf (x :: xs) = true
      · rw [if_pos hcond] at hp
        rcases List.mem_cons.mp hp with h | h
        · subst h; cases hc
        · exact List.mem_of_mem_drop (ih _ piece h c hc)
      · rw [if_neg hcond] at hp
        cases hgo : jsSplitGo sep f xs with
        | nil =>
          rw [hgo] at hp
          have hp' : piece = [x] := by simpa using hp
          subst hp'
          have : c = x := by simpa using hc
          rw [this]
          exact List.mem_cons_self x xs
        | cons r rs =>
          rw [hgo] at hp
          rcases List.mem_cons.mp hp with h | h
          · subst h
            rcases List.mem_cons.mp hc with h' | h'
            · rw [h']; exact List.mem_cons_self x xs
            · have hr : r ∈ jsSplitGo sep f xs := by
                rw [hgo]; exact List.mem_cons_self r rs
              exact List.mem_cons_of_mem x (ih xs r hr c h')
          · have hpe : piece ∈ jsSplitGo sep f xs := by
              rw [hgo]; exact List.mem_cons_of_mem r h
            exact List.mem_cons_of_mem x (ih xs piece hpe c hc)

theorem allWs_of_jsTrim_nil {s : Str} (h : jsTrim s = []) : ∀ c ∈ s, wsChar c = true := by
  rw [jsTrim] at h
  have h1 : (s.dropWhile wsChar).reverse.dropWhile wsChar = [] := by
    rwa [List.reverse_eq_nil_iff] at h
  have h3 : ∀ c ∈ s.dropWhile wsChar, wsChar c = true := fun c hc =>
    List.dropWhile_eq_nil_iff.mp h1 c (List.mem_reverse.mpr hc)
  intro c hc
  have hsplit := List.takeWhile_append_dropWhile wsChar s
  rw [← hsplit] at hc
  rcases List.mem_append.mp hc with h4 | h4
  · exact List.mem_takeWhile_imp h4
  · exact h3 c h4

theorem jsTrim_nil_of_allWs {s : Str} (h : ∀ c ∈ s, wsChar c = true) : jsTrim s = [] := by
  rw [jsTrim, List.dropWhile_eq_nil_iff.mpr h]
  rfl

/-- C7: for every configuration value, the protected set returned by
`getBaseBranches` is the built-in `["master", "main"]` followed exactly by
the entries obtained by splitting the value on `;`, trimming each segment
and dropping empty segments; in particular `"develop;staging;"`
contributes exactly `["develop", "staging"]`. -/
theorem getBaseBranches_parse (cfg : Str) :
    getBaseBranches cfg = ["master".data, "main".data] ++ specEntries cfg ∧
    getBaseBranches ("develop;staging;".data) =
      ["master".data, "main".data, "develop".data, "staging".data] := by
  constructor
  · rw [getBaseBranches, specEntries]
    by_cases h : jsTrim cfg = []
    · rw [if_pos h]
      have hent : ((jsSplit semiSep cfg).map jsTrim).filter
          (fun b => decide (0 < b.length)) = [] := by
        rw [List.filter_eq_nil_iff]
        intro b hb
        obtain ⟨piece, hpiece, hbeq⟩ := List.mem_map.mp hb
        have hws : ∀ c ∈ piece, wsChar c = true := fun c hc =>
          allWs_of_jsTrim_nil h c
            (jsSplit_chunk_subset cfg.length cfg piece hpiece c hc)
        rw [← hbeq, jsTrim_nil_of_allWs hws]
        simp
      rw [hent, List.append_nil]
    · rw [if_neg h]
  · decide

/-! ## C9: the subject filter of the listing query -/

/-- C9: the anchored grep expression `^Milestone:` accepts every subject
produced by the `"Milestone: "` encoder (for every note `n` and branch
`b` — the branch is not part of the subject in this scheme), and rejects
every commit subject that does not even contain the fixed literal token
`Milestone:`. -/
theorem milestone_subject_filter :
    (∀ n b : Str, isMilestoneSubject (encodeSubject003 n) = true) ∧
    (∀ s : Str, containsSeq msToken s = false → isMilestoneSubject s = false) := by
  constructor
  · intro n b
    rw [isMilestoneSubject]
    have hform : encodeSubject003 n = msToken ++ (' ' :: jsOrDefault n) := rfl
    rw [hform]
    exact prefixOf_append_self msToken _
  · intro s h
    have h0 := containsSeq_false_no_occ h 0
    rwa [List.drop_zero] at h0

/-- Witness: the filter accepts the encoded subject of the note `alpha`
and rejects the unrelated subject `Fix login bug`. -/
theorem milestone_subject_filter_witness :
    isMilestoneSubject (encodeSubject003 ("alpha".data)) = true ∧
    isMilestoneSubject ("Fix login bug".data) = false :=
  ⟨milestone_subject_filter.1 ("alpha".data) ("dev".data),
   milestone_subject_filter.2 ("Fix login bug".data) (by decide)⟩

/-! ## C10: ignored-files filtering failures are swallowed -/

/-- C10: whenever the preconditions hold and staging, commit and push
succeed, the README-revision `createMilestone` ends in the success message
and its trace contains the milestone commit command — for an arbitrary
environment, hence however the ignored-files filtering step behaves:
an invalid `ignoredFilesPattern` regular expression (`regexValid` false),
a failing `git diff --cached` and failing `git reset` unstagings are all
caught inside `filterIgnoredFiles` and never surface. -/
theorem filter_errors_swallowed (env : Env) (w note r s a cm p : Str)
    (hw : env.workspace = some w) (hr : env.exec revParseCmd = Except.ok r)
    (hn : env.noteInput = some note) (hs : env.exec symRefCmd = Except.ok s)
    (ha : env.exec addAllCmd = Except.ok a)
    (hc : env.exec (commitCmdFeat note) = Except.ok cm)
    (hp : env.exec pushCmd = Except.ok p) :
    createMilestoneFeat env =
      ([revParseCmd, symRefCmd, addAllCmd] ++ filterIgnoredFiles env ++
        [commitCmdFeat note, pushCmd], UiMsg.info createdMsg) ∧
    commitCmdFeat note ∈ (createMilestoneFeat env).1 := by
  have h1 : createMilestoneFeat env =
      ([revParseCmd, symRefCmd, addAllCmd] ++ filterIgnoredFiles env ++
        [commitCmdFeat note, pushCmd], UiMsg.info createdMsg) := by
    simp only [createMilestoneFeat, hw, hr, hn, hs, ha, hc, hp]
  refine ⟨h1, ?_⟩
  rw [h1]
  simp [List.mem_append]

/-- An environment whose configured `ignoredFilesPattern` is an invalid
regular expression (`new RegExp` would throw). -/
def c10Env : Env :=
  { workspace := some ("ws".data)
    exec := fun _ => Except.ok ("done".data)
    noteInput := some ("beta".data)
    confirmReset := true
    additionalBaseBranches := []
    ignoredFilesPattern := "[".data
    regexValid := fun _ => false
    regexTest := fun _ _ => false }

/-- Witness: with an invalid exclusion regex the milestone commit is still
created and the operation succeeds. -/
theorem filter_errors_swallowed_witness :
    createMilestoneFeat c10Env =
      ([revParseCmd, symRefCmd, addAllCmd] ++ filterIgnoredFiles c10Env ++
        [commitCmdFeat ("beta".data), pushCmd], UiMsg.info createdMsg) ∧
    commitCmdFeat ("beta".data) ∈ (createMilestoneFeat c10Env).1 :=
  filter_errors_swallowed c10Env ("ws".data) ("beta".data) ("done".data) ("done".data)
    ("done".data) ("done".data) ("done".data) rfl (by rfl) rfl (by rfl) (by rfl)
    (by rfl) (by rfl)
